import Mathlib

/-!
Verification of the route landmark annotation engine of `cycling_ani`
(`src/mapGenerator.js`, function `analyzeGpxRouteWithProgress`), against its
natural-language specification.

Modelling notes.

* Track points are modelled after the parsed shape produced at the top of the
  engine (`lat`, `lon`, `ele` numbers); coordinates and elevations are
  rationals.
* The only numeric primitive of the engine is the haversine great-circle
  distance, a transcendental function evaluated on IEEE floats.  Every claim
  under consideration concerns the sampling, classification and filtering
  logic built on top of that distance, not its numerics, so the pipeline is
  parameterised by the distance function `hav : HavFn`.  Concrete evaluations
  instantiate it with a simple computable metric-like function.
* The external Overpass lookup is abstracted by an
  `overpass : Option (List Element)` argument: `none` models a thrown fetch /
  malformed payload (the `catch` leaves `overpassResult = null`, and a payload
  without an `elements` field is skipped the same way); `some els` models a
  payload carrying an `elements` array.  The bounding-box computation only
  feeds the abstracted query, so it is not re-modelled, except for its one
  observable effect: on an empty track `points[markerIndices[0]]` is
  `undefined` and reading `.lat` throws a TypeError before any callback runs.
  `analyze` returns `none` exactly in that case.
* The two callbacks are modelled as an event trace: one `Event.progress` per
  classified marker, in order, followed by a single `Event.done` carrying the
  filtered result, exactly mirroring the call sites in the source.
* JS objects keyed by integers iterate their keys in ascending numeric order;
  associative lists in the model are kept in the corresponding order
  (`blockTowns` is maintained key-sorted, matching the `for (let block in
  blockTowns)` iteration).  The `seen` set stores strings
  `type + '|' + name` with `type` drawn from `pass`/`river`/`town`; since no
  type contains `'|'` this is in bijection with the pair `(type, name)`, which
  is how the model stores it.
-/

namespace GpxAni

/-- A parsed track point (`points` array in `analyzeGpxRouteWithProgress`). -/
structure Point where
  lat : ℚ
  lon : ℚ
  ele : ℚ
deriving DecidableEq

/-- The tag set of an Overpass element, restricted to the keys the engine
reads. `none` models an absent key. -/
structure Tags where
  mountain_pass : Option String
  waterway : Option String
  place : Option String
  name : Option String
  population : Option String
deriving DecidableEq

/-- An Overpass element: a node carries `lat`/`lon`, a way carries a `center`
point; `tags` may be absent. `none` models an absent (`undefined`) field. -/
structure Element where
  lat : Option ℚ
  lon : Option ℚ
  center : Option (ℚ × ℚ)
  tags : Option Tags
deriving DecidableEq

/-- A classified landmark entry `{ type, name }` as stored in `summary` and in
the filtered result. -/
structure Entry where
  type : String
  name : String
deriving DecidableEq

/-- The caller-visible events of one engine invocation: each
`progressCallback(m+1, total)` call and the final `doneCallback(filtered)`. -/
inductive Event where
  | progress (processed total : Nat)
  | done (result : List (Nat × Entry))
deriving DecidableEq

/-- The abstracted haversine distance: `hav lat1 lon1 lat2 lon2` in km. -/
abbrev HavFn := ℚ → ℚ → ℚ → ℚ → ℚ

/-- JS truthiness of a possibly-`undefined` number: `undefined` and `0` are
falsy. -/
def truthyQ : Option ℚ → Bool
  | none => false
  | some q => if q = 0 then false else true

/-- `points[i]`; the engine only indexes with in-range marker indices, so the
default is never observable through `analyze`. -/
def pointAt (points : List Point) (i : Nat) : Point :=
  points.getD i ⟨0, 0, 0⟩

/-- The marker sampling loop (`for (let i = 1; i < points.length; i++)`):
accumulate `hav` between consecutive points and emit a marker
`(Math.round(cumDist), i)` whenever `cumDist >= lastKm + SAMPLE_EVERY_KM`
(`SAMPLE_EVERY_KM = 1`); `lastKm` is the previously pushed rounded value. -/
def sampleAux (hav : HavFn) : Point → Nat → ℚ → Nat → List Point → List (Nat × Nat)
  | _, _, _, _, [] => []
  | prev, i, cumDist, lastKm, p :: rest =>
    let c := cumDist + hav prev.lat prev.lon p.lat p.lon
    if (lastKm : ℚ) + 1 ≤ c then
      ((round c).toNat, i) :: sampleAux hav p (i + 1) c (round c).toNat rest
    else
      sampleAux hav p (i + 1) c lastKm rest

/-- The full sampler: `kmMarkers`/`markerIndices` start as `[0]`/`[0]` and the
loop appends; the two arrays always grow together and are modelled as one list
of pairs `(cumulativeKm, pointIndex)`. -/
def sampleMarkers (hav : HavFn) (points : List Point) : List (Nat × Nat) :=
  match points with
  | [] => [(0, 0)]
  | p :: rest => (0, 0) :: sampleAux hav p 1 0 0 rest

/-- `el.tags && el.tags.mountain_pass === 'yes'`. -/
def isPassEl (el : Element) : Bool :=
  match el.tags with
  | some t => decide (t.mountain_pass = some "yes")
  | none => false

/-- `el.tags && el.tags.waterway === 'river'`. -/
def isRiverEl (el : Element) : Bool :=
  match el.tags with
  | some t => decide (t.waterway = some "river")
  | none => false

/-- `el.tags && el.tags.place && (place === 'town' || 'city' || 'village')`. -/
def isTownEl (el : Element) : Bool :=
  match el.tags with
  | some t =>
    match t.place with
    | some p => if p = "" then false else decide (p = "town" ∨ p = "city" ∨ p = "village")
    | none => false
  | none => false

/-- The `else if` chain that splits the payload into `passes`, `rivers`,
`towns`, preserving encounter order. -/
def splitElements : List Element → List Element × List Element × List Element
  | [] => ([], [], [])
  | el :: rest =>
    let s := splitElements rest
    if isPassEl el then (el :: s.1, s.2.1, s.2.2)
    else if isRiverEl el then (s.1, el :: s.2.1, s.2.2)
    else if isTownEl el then (s.1, s.2.1, el :: s.2.2)
    else s

/-- Position of a point feature: `if (el.lat && el.lon)` — a missing or zero
coordinate excludes the feature. -/
def pointPos (el : Element) : Option (ℚ × ℚ) :=
  if truthyQ el.lat && truthyQ el.lon then
    match el.lat, el.lon with
    | some a, some b => some (a, b)
    | _, _ => none
  else none

/-- `let rlat = el.lat || (el.center && el.center.lat)`. -/
def riverLat (el : Element) : Option ℚ :=
  if truthyQ el.lat then el.lat else el.center.map Prod.fst

/-- `let rlon = el.lon || (el.center && el.center.lon)`. -/
def riverLon (el : Element) : Option ℚ :=
  if truthyQ el.lon then el.lon else el.center.map Prod.snd

/-- Position of a river feature: the own coordinate when truthy, else the
`center` one, guarded by `if (rlat && rlon)`. -/
def riverPos (el : Element) : Option (ℚ × ℚ) :=
  if truthyQ (riverLat el) && truthyQ (riverLon el) then
    match riverLat el, riverLon el with
    | some a, some b => some (a, b)
    | _, _ => none
  else none

/-- One iteration of a nearest-feature loop: skip elements without a usable
position, otherwise keep the element iff its distance is strictly below the
current best (`d < nearestDist`, initial best `1.0`). -/
def nearestStep (hav : HavFn) (lat lon : ℚ) (getPos : Element → Option (ℚ × ℚ))
    (acc : Option Element × ℚ) (el : Element) : Option Element × ℚ :=
  match getPos el with
  | some pos =>
    let d := hav lat lon pos.1 pos.2
    if d < acc.2 then (some el, d) else acc
  | none => acc

/-- Nearest feature of one kind within the fixed `1.0` km threshold; first
strict minimum wins, encounter order significant. -/
def nearestIn (hav : HavFn) (lat lon : ℚ) (getPos : Element → Option (ℚ × ℚ))
    (els : List Element) : Option Element :=
  (els.foldl (nearestStep hav lat lon getPos) (none, 1)).1

/-- `el.tags.name || dflt`: an absent or empty name yields the placeholder. -/
def tagName (el : Element) (dflt : String) : String :=
  match el.tags with
  | some t =>
    match t.name with
    | some n => if n = "" then dflt else n
    | none => dflt
  | none => dflt

/-- One offset of the `isPeak` window test: a violation exists when a
neighbour at that offset exists on either side and is strictly higher. -/
def peakViolation (points : List Point) (idx : Nat) (offset : Nat) : Bool :=
  (decide (offset ≤ idx) && decide ((pointAt points (idx - offset)).ele > (pointAt points idx).ele)) ||
  (decide (idx + offset < points.length) && decide ((pointAt points (idx + offset)).ele > (pointAt points idx).ele))

/-- `isPeak(idx)`: offsets `1..2` on both sides (bounded by the sequence
edges); any strictly higher neighbour refutes the peak. -/
def isPeak (points : List Point) (idx : Nat) : Bool :=
  !(peakViolation points idx 1 || peakViolation points idx 2)

/-- Classification of one marker: nearest pass, else nearest river, else
nearest town (as a pass when the marker index is a peak), else no entry. -/
def classifyMarker (hav : HavFn) (points : List Point)
    (passes rivers towns : List Element) (idx : Nat) : Option Entry :=
  let p := pointAt points idx
  match nearestIn hav p.lat p.lon pointPos passes with
  | some el => some ⟨"pass", tagName el "Unnamed Pass"⟩
  | none =>
    match nearestIn hav p.lat p.lon riverPos rivers with
    | some el => some ⟨"river", tagName el "Unnamed River"⟩
    | none =>
      match nearestIn hav p.lat p.lon pointPos towns with
      | some el =>
        if isPeak points idx then some ⟨"pass", tagName el "Unnamed Town (Peak)"⟩
        else some ⟨"town", tagName el "Unnamed Town"⟩
      | none => none

/-- The `summary` map: one classification attempt per marker, keyed by its
`cumulativeKm` (keys are strictly increasing, hence unique). -/
def buildSummary (hav : HavFn) (points : List Point)
    (passes rivers towns : List Element) (markers : List (Nat × Nat)) : List (Nat × Entry) :=
  markers.filterMap (fun m => (classifyMarker hav points passes rivers towns m.2).map (fun e => (m.1, e)))

/-- Associative-list lookup (`summary[km]`, `blockTowns[block]`). -/
def lookupA {α : Type} : List (Nat × α) → Nat → Option α
  | [], _ => none
  | (k, v) :: rest, key => if k = key then some v else lookupA rest key

/-- `needle` is an initial run of `hay`. -/
def leadMatch : List Char → List Char → Bool
  | [], _ => true
  | _ :: _, [] => false
  | a :: as, b :: bs => a == b && leadMatch as bs

/-- Substring test on character lists. -/
def containsSub (needle hay : List Char) : Bool :=
  hay.tails.any (fun t => leadMatch needle t)

/-- `entry.name.toLowerCase().includes('unnamed')` (lower-casing modelled
per character). -/
def hasUnnamed (s : String) : Bool :=
  containsSub "unnamed".toList (s.toList.map Char.toLower)

/-- The mutable state of the filter pipeline: the accepted map `filtered`, the
claimed-block set `blockHas` and the accepted-key set `seen` (stored as the
pair `(type, name)`, see the header note). -/
structure FState where
  filtered : List (Nat × Entry)
  blockHas : List Nat
  seen : List (String × String)
deriving DecidableEq

/-- One marker of filter pass 1: accept a named `pass` entry whose 10 km block
is unclaimed; claim the block and record the `(type, name)` key. -/
def pass1Step (summary : List (Nat × Entry)) (st : FState) (m : Nat × Nat) : FState :=
  match lookupA summary m.1 with
  | none => st
  | some entry =>
    if hasUnnamed entry.name then st
    else
      let block := m.1 / 10
      if block ∈ st.blockHas then st
      else if entry.type = "pass" then
        { filtered := st.filtered ++ [(m.1, entry)]
          blockHas := st.blockHas ++ [block]
          seen := st.seen ++ [(entry.type, entry.name)] }
      else st

/-- Filter pass 1 over all markers in order. -/
def pass1 (summary : List (Nat × Entry)) (markers : List (Nat × Nat)) (st : FState) : FState :=
  markers.foldl (pass1Step summary) st

/-- One marker of filter pass 2: accept a named `river` entry whose block is
unclaimed and whose `(type, name)` key is not yet in `seen`. -/
def pass2Step (summary : List (Nat × Entry)) (st : FState) (m : Nat × Nat) : FState :=
  match lookupA summary m.1 with
  | none => st
  | some entry =>
    if entry.type ≠ "river" then st
    else if hasUnnamed entry.name then st
    else
      let block := m.1 / 10
      if block ∈ st.blockHas then st
      else if (entry.type, entry.name) ∈ st.seen then st
      else
        { filtered := st.filtered ++ [(m.1, entry)]
          blockHas := st.blockHas ++ [block]
          seen := st.seen ++ [(entry.type, entry.name)] }

/-- Filter pass 2 over all markers in order. -/
def pass2 (summary : List (Nat × Entry)) (markers : List (Nat × Nat)) (st : FState) : FState :=
  markers.foldl (pass2Step summary) st

/-- `parseInt(s.replace(/\D/g, ''))`: strip non-digits, then parse; an empty
remainder parses to `NaN`, modelled as `none`. -/
def parsePop (s : String) : Option Nat :=
  let ds := s.toList.filter Char.isDigit
  if ds = [] then none
  else some (ds.foldl (fun n c => n * 10 + (c.toNat - 48)) 0)

/-- The `towns.find(...)` predicate of pass 3:
`t.tags && (t.tags.name || 'Unnamed Town') === entry.name`. -/
def townMatches (nm : String) (t : Element) : Bool :=
  match t.tags with
  | some tg =>
    decide ((match tg.name with
      | some n => if n = "" then "Unnamed Town" else n
      | none => "Unnamed Town") = nm)
  | none => false

/-- `el && el.tags && el.tags.population ? parseInt(...) : 0`: the population
of the first name-matching town element; absent element, tags or population
(or an empty population string, which is falsy) default to `0`; a nonempty
digitless population is `NaN` (`none`). -/
def townPop (towns : List Element) (nm : String) : Option Nat :=
  match towns.find? (townMatches nm) with
  | some el =>
    match el.tags with
    | some tg =>
      match tg.population with
      | some p => if p = "" then some 0 else parsePop p
      | none => some 0
    | none => some 0
  | none => some 0

/-- JS `>` on possibly-`NaN` numbers: any comparison against `NaN` is false. -/
def popGT : Option Nat → Option Nat → Bool
  | some a, some b => decide (b < a)
  | _, _ => false

/-- The eligibility filter of the pass-3 grouping loop.  The checks read only
`blockHas` (fixed during the loop), never the accumulating `blockTowns` map,
so the loop is split into this candidate extraction followed by the
best-per-block fold `blockTownsOf`; the composition computes exactly the
source loop.  Each candidate is `(block, km, entry, pop)`. -/
def pass3Cands (towns : List Element) (summary : List (Nat × Entry))
    (blockHas : List Nat) (markers : List (Nat × Nat)) : List (Nat × Nat × Entry × Option Nat) :=
  markers.filterMap (fun m =>
    match lookupA summary m.1 with
    | none => none
    | some entry =>
      if entry.type ≠ "town" then none
      else if hasUnnamed entry.name then none
      else
        let block := m.1 / 10
        if block ∈ blockHas then none
        else some (block, m.1, entry, townPop towns entry.name))

/-- Insert-or-replace keeping the associative list sorted by key, mirroring a
JS object with integer keys (iteration in ascending key order). -/
def upsertSorted {α : Type} (k : Nat) (v : α) : List (Nat × α) → List (Nat × α)
  | [] => [(k, v)]
  | (k', v') :: rest =>
    if k < k' then (k, v) :: (k', v') :: rest
    else if k = k' then (k, v) :: rest
    else (k', v') :: upsertSorted k v rest

/-- `if (!blockTowns[block] || pop > blockTowns[block].pop) blockTowns[block] = ...`:
install the candidate when its block has no winner yet or its population
strictly beats the current winner under the `NaN`-rejecting comparison. -/
def btStep (bt : List (Nat × Nat × Entry × Option Nat))
    (c : Nat × Nat × Entry × Option Nat) : List (Nat × Nat × Entry × Option Nat) :=
  match lookupA bt c.1 with
  | none => upsertSorted c.1 c.2 bt
  | some cur => if popGT c.2.2.2 cur.2.2 then upsertSorted c.1 c.2 bt else bt

/-- The grouping fold: one winner per block. -/
def blockTownsOf (cands : List (Nat × Nat × Entry × Option Nat)) :
    List (Nat × Nat × Entry × Option Nat) :=
  cands.foldl btStep []

/-- One block of the pass-3 acceptance loop: if the block is still unclaimed,
accept the winner unless its `(type, name)` key is already in `seen` (adding
the key on acceptance), and claim the block either way. -/
def pass3Step (st : FState) (b : Nat × Nat × Entry × Option Nat) : FState :=
  if b.1 ∈ st.blockHas then st
  else if (b.2.2.1.type, b.2.2.1.name) ∈ st.seen then
    { st with blockHas := st.blockHas ++ [b.1] }
  else
    { filtered := st.filtered ++ [(b.2.1, b.2.2.1)]
      blockHas := st.blockHas ++ [b.1]
      seen := st.seen ++ [(b.2.2.1.type, b.2.2.1.name)] }

/-- Filter pass 3: group unclaimed-block named town markers, pick the per-block
winner by population, then accept winners in ascending block order. -/
def pass3 (towns : List Element) (summary : List (Nat × Entry))
    (markers : List (Nat × Nat)) (st : FState) : FState :=
  (blockTownsOf (pass3Cands towns summary st.blockHas markers)).foldl pass3Step st

/-- The removal marks of the proximity collapse: one pass over the sorted key
list, marking the earlier key of every adjacent pair strictly closer than 5. -/
def toRemoveList : List Nat → List Nat
  | a :: b :: t => (if b - a < 5 then [a] else []) ++ toRemoveList (b :: t)
  | _ => []

/-- `Object.keys(filtered).map(Number).sort((a, b) => a - b)`. -/
def sortedKeys (l : List (Nat × Entry)) : List Nat :=
  List.insertionSort (fun a b => a ≤ b) (l.map Prod.fst)

/-- The final proximity collapse: delete every marked key from the map. -/
def collapseFilter (l : List (Nat × Entry)) : List (Nat × Entry) :=
  let rem := toRemoveList (sortedKeys l)
  l.filter (fun p => p.1 ∉ rem)

/-- The three filter passes run from the empty state. -/
def runFilterState (towns : List Element) (markers : List (Nat × Nat))
    (summary : List (Nat × Entry)) : FState :=
  pass3 towns summary markers (pass2 summary markers (pass1 summary markers ⟨[], [], []⟩))

/-- The complete filter pipeline: three passes, then the proximity collapse. -/
def runFilter (towns : List Element) (markers : List (Nat × Nat))
    (summary : List (Nat × Entry)) : List (Nat × Entry) :=
  collapseFilter (runFilterState towns markers summary).filtered

/-- The whole engine `analyzeGpxRouteWithProgress`, as the event trace it
delivers to its two callbacks.  `none` models the TypeError thrown while
computing the bounding box of an empty track (before any callback). -/
def analyze (hav : HavFn) (points : List Point) (overpass : Option (List Element)) :
    Option (List Event) :=
  let markers := sampleMarkers hav points
  if points.isEmpty then none
  else
    let s := splitElements (overpass.getD [])
    let summary := buildSummary hav points s.1 s.2.1 s.2.2 markers
    let filtered := runFilter s.2.2 markers summary
    some ((List.range markers.length).map (fun m => Event.progress (m + 1) markers.length)
      ++ [Event.done filtered])

/-- A simple computable metric used to instantiate the abstracted distance
function in concrete evaluations. -/
def absDist : HavFn := fun lat1 lon1 lat2 lon2 => |lat2 - lat1| + |lon2 - lon1|

/-! Concrete inputs for the counterexamples and witnesses below. -/

/-- Tags of a town feature. -/
def townTags (nm : String) (pop : Option String) : Tags :=
  ⟨none, none, some "town", some nm, pop⟩

/-- Tags of a mountain-pass feature. -/
def passTags (nm : String) : Tags :=
  ⟨some "yes", none, none, some nm, none⟩

/-- Tags of a river feature. -/
def riverTags (nm : String) : Tags :=
  ⟨none, some "river", none, some nm, none⟩

/-- A four-point track: markers are sampled at km 0, 5 and 15 (the fourth
point adds no distance and only serves to keep index 2 from being a peak). -/
def ptsA : List Point := [⟨0, 0, 0⟩, ⟨5, 0, 1⟩, ⟨15, 0, 2⟩, ⟨15, 0, 3⟩]

/-- A four-point track with markers at km 0, 10 and 12 (blocks 0, 1, 1). -/
def ptsB : List Point := [⟨0, 0, 0⟩, ⟨10, 0, 1⟩, ⟨12, 0, 2⟩, ⟨12, 0, 3⟩]

/-- Two town features sharing the name `X`, near km 5 (block 0) and km 15
(block 1) of `ptsA` respectively. -/
def townX5 : Element := ⟨some 5, some (1/2), none, some (townTags "X" none)⟩

/-- See `townX5`. -/
def townX15 : Element := ⟨some 15, some (1/2), none, some (townTags "X" none)⟩

/-- A pass named `X` near km 5 of `ptsA`. -/
def passX5 : Element := ⟨some 5, some (1/2), none, some (passTags "X")⟩

/-- A river named `X` (a way, positioned by its center) near km 15 of
`ptsA`. -/
def riverX15 : Element := ⟨none, none, some (15, 1/2), some (riverTags "X")⟩

/-- A town with a digitless population string, near km 10 of `ptsB`. -/
def townA10 : Element := ⟨some 10, some (1/2), none, some (townTags "A" (some "abc"))⟩

/-- A town with population `500`, near km 12 of `ptsB`. -/
def townB12 : Element := ⟨some 12, some (1/2), none, some (townTags "B" (some "500"))⟩

/-- A pass on the equator (latitude exactly `0`), within `1/2` of the origin
under `absDist`. -/
def passZ : Element := ⟨some 0, some (1/2), none, some (passTags "Z")⟩

/-- A river within `1/2` of the origin under `absDist`. -/
def riverW : Element := ⟨none, none, some (1/4, 1/4), some (riverTags "W")⟩

/-- The elevation profile `[100, 150, 200, 150, 100]` as a track. -/
def profile1 : List Point :=
  [⟨0, 0, 100⟩, ⟨0, 0, 150⟩, ⟨0, 0, 200⟩, ⟨0, 0, 150⟩, ⟨0, 0, 100⟩]

/-- The elevation profile `[100, 150, 200, 250, 300]` as a track. -/
def profile2 : List Point :=
  [⟨0, 0, 100⟩, ⟨0, 0, 150⟩, ⟨0, 0, 200⟩, ⟨0, 0, 250⟩, ⟨0, 0, 300⟩]

-- The four `Rat` operations below are `@[irreducible]` in Batteries, which
-- only blocks elaboration-time unfolding; restoring the default transparency
-- lets `decide` evaluate the concrete pipeline runs.
attribute [local semireducible] Rat.add Rat.sub Rat.mul Rat.inv

/-!
## Claim C1

The engine `analyzeGpxRouteWithProgress` performs no input-size check of its
own: the fatal fewer-than-2-points error lives in
`GpxStatsCalculator.calculateStats` (`gpxStatsCalculator.js:17-20`), outside
the landmark engine.  A 1-point track is processed to completion: one marker
is sampled at `(0, 0)`, the progress callback fires `(1, 1)`, and the
completion callback fires once; no error is reported.
-/

/-- C1 counterexample: on a track with fewer than 2 points (here exactly one),
the engine does not fail; it samples and classifies a marker and fires both
the progress and completion callbacks, contradicting the claim that a fatal
error is reported before any processing and that no callback fires. -/
theorem c1_counterexample :
    analyze absDist [⟨0, 0, 0⟩] none = some [Event.progress 1 1, Event.done []] := by
  decide

/-- C1 (amended): the engine itself performs no input-size check.  Any 1-point
track runs to completion, firing the progress callback once with `(1, 1)` and
the completion callback exactly once with some result; the engine's only
failure mode is the TypeError thrown on an empty (0-point) track while
computing the bounding box, before any callback. -/
theorem c1_engine_has_no_input_size_check :
    (∀ (hav : HavFn) (ov : Option (List Element)) (p : Point),
      ∃ res, analyze hav [p] ov = some [Event.progress 1 1, Event.done res]) ∧
    (∀ (hav : HavFn) (points : List Point) (ov : Option (List Element)),
      analyze hav points ov = none ↔ points = []) := by
  constructor
  · intro hav ov p
    exact ⟨_, rfl⟩
  · intro hav points ov
    cases points with
    | nil => simp [analyze]
    | cons p rest => simp [analyze]

/-!
## Claim C2 — counterexample

Both markers at km 5 (block 0) and km 15 (block 1) of `ptsA` classify as town
`X`; passes 1 and 2 accept nothing, so neither block's winner has its
`(type, name)` pair accepted by an earlier pass.  The claim predicts both
winners are accepted; the code accepts only the earlier one, because the
pass-3 acceptance loop adds `town|X` to `seen` and the seen-check also fires
on keys added within pass 3 itself.
-/

/-- C2 counterexample: block 0's winner `(5, town X)` is accepted, after which
block 1's winner `(15, town X)` — whose key was never accepted by pass 1 or
pass 2 — is dropped by the seen-check. -/
theorem c2_counterexample :
    analyze absDist ptsA (some [townX5, townX15]) =
      some [Event.progress 1 3, Event.progress 2 3, Event.progress 3 3,
        Event.done [(5, ⟨"town", "X"⟩)]] := by
  decide

/-!
## Claim C3 — counterexample

The marker at km 5 of `ptsA` classifies as pass `X` (accepted by pass 1,
recording the key `pass|X`), and the marker at km 15 classifies as river `X`.
Pass 2's seen-check compares the key `river|X`, which pass 1 can never have
recorded, so the river is accepted and the name `X` reappears in the
FilteredResult under the river classification — contradicting the claim.
-/

/-- C3 counterexample: a feature name accepted as a pass in pass 1 reappears
in the FilteredResult under the river classification. -/
theorem c3_counterexample :
    analyze absDist ptsA (some [passX5, riverX15]) =
      some [Event.progress 1 3, Event.progress 2 3, Event.progress 3 3,
        Event.done [(5, ⟨"pass", "X"⟩), (15, ⟨"river", "X"⟩)]] := by
  decide

/-!
## Claim C4 — counterexample

In block 1 of `ptsB`, the first candidate (km 10, town `A`) has population
string `"abc"`: stripping non-digits leaves the empty string and
`parseInt('')` is `NaN`, not `0`.  The later candidate (km 12, town `B`,
population `500`) fails to displace it because `500 > NaN` is false.  The
claim predicts `B` wins the block with `500 > 0`; the code keeps `A`.
-/

/-- C4 counterexample: a digitless population counts as `NaN` rather than
zero, and the `NaN` first candidate wins its block against a later candidate
with population 500. -/
theorem c4_counterexample :
    analyze absDist ptsB (some [townA10, townB12]) =
      some [Event.progress 1 3, Event.progress 2 3, Event.progress 3 3,
        Event.done [(10, ⟨"town", "A"⟩)]] := by
  decide

/-!
## Claim C6 — counterexample

The marker point `(0, 0)` is within the 1.0 km threshold of both the pass
`passZ` (distance `1/2`) and the river `riverW` (distance `1/2`), but the
pass's latitude is exactly `0`, so `if (el.lat && el.lon)` excludes it from
the nearest-pass search and the classifier returns the river.
-/

/-- C6 counterexample: a marker within threshold of both a pass and a river is
classified `river`, because the pass's zero latitude is falsy. -/
theorem c6_counterexample :
    absDist 0 0 0 (1/2) < 1 ∧ absDist 0 0 (1/4) (1/4) < 1 ∧
      classifyMarker absDist [⟨0, 0, 0⟩] [passZ] [riverW] [] 0 = some ⟨"river", "W"⟩ := by
  refine ⟨by decide, by decide, by decide⟩


/-!
## Claim C7 — peak detection
-/

/-- `peakViolation` unfolded to the spec-level condition at one offset. -/
theorem peakViolation_eq_false_iff (points : List Point) (idx o : Nat) :
    peakViolation points idx o = false ↔
      (o ≤ idx → ¬ (pointAt points (idx - o)).ele > (pointAt points idx).ele) ∧
      (idx + o < points.length → ¬ (pointAt points (idx + o)).ele > (pointAt points idx).ele) := by
  simp only [peakViolation, Bool.or_eq_false_iff, Bool.and_eq_false_iff,
    decide_eq_false_iff_not]
  constructor
  · rintro ⟨h1, h2⟩
    exact ⟨fun hle => h1.resolve_left (not_not_intro hle),
      fun hlt => h2.resolve_left (not_not_intro hlt)⟩
  · rintro ⟨h1, h2⟩
    constructor
    · by_cases hle : o ≤ idx
      · exact Or.inr (h1 hle)
      · exact Or.inl hle
    · by_cases hlt : idx + o < points.length
      · exact Or.inr (h2 hlt)
      · exact Or.inl hlt

/-- `isPeak` in terms of its two offset checks. -/
theorem isPeak_eq_true_iff (points : List Point) (idx : Nat) :
    isPeak points idx = true ↔
      peakViolation points idx 1 = false ∧ peakViolation points idx 2 = false := by
  cases h1 : peakViolation points idx 1 <;> cases h2 : peakViolation points idx 2 <;>
    simp [isPeak, h1, h2]

/-- C7: a point is flagged a peak iff no existing neighbour at offset 1 or 2 on
either side has strictly greater elevation; the profile `[100,150,200,150,100]`
peaks at its centre and the monotone profile `[100,150,200,250,300]` peaks at
its last index. -/
theorem c7_peak_detection :
    (∀ (points : List Point) (idx : Nat),
      isPeak points idx = true ↔
        ∀ o, 1 ≤ o → o ≤ 2 →
          (o ≤ idx → ¬ (pointAt points (idx - o)).ele > (pointAt points idx).ele) ∧
          (idx + o < points.length → ¬ (pointAt points (idx + o)).ele > (pointAt points idx).ele)) ∧
    isPeak profile1 2 = true ∧ isPeak profile2 4 = true := by
  refine ⟨?_, by decide, by decide⟩
  intro points idx
  rw [isPeak_eq_true_iff, peakViolation_eq_false_iff, peakViolation_eq_false_iff]
  constructor
  · rintro ⟨hv1, hv2⟩ o ho1 ho2
    interval_cases o
    · exact hv1
    · exact hv2
  · intro h
    exact ⟨h 1 (by omega) (by omega), h 2 (by omega) (by omega)⟩

/-!
## Claim C9 — distance sampler
-/

/-- Every marker the sampling loop emits has a rounded km strictly above the
`lastKm` it started from and a point index at least `i`, and the emitted list
is strictly increasing in both fields. -/
theorem sampleAux_spec (hav : HavFn) :
    ∀ (rest : List Point) (prev : Point) (i : Nat) (c : ℚ) (lastKm : Nat),
      List.Chain' (fun a b : Nat × Nat => a.1 < b.1 ∧ a.2 < b.2)
        (sampleAux hav prev i c lastKm rest) ∧
      ∀ x ∈ sampleAux hav prev i c lastKm rest, lastKm < x.1 ∧ i ≤ x.2 := by
  intro rest
  induction rest with
  | nil => intro prev i c lastKm; exact ⟨List.chain'_nil, by intro x hx; cases hx⟩
  | cons p rest ih =>
    intro prev i c lastKm
    simp only [sampleAux]
    set c' := c + hav prev.lat prev.lon p.lat p.lon with hc'
    by_cases hpush : (lastKm : ℚ) + 1 ≤ c'
    · have hkm : lastKm + 1 ≤ (round c').toNat := by
        have h1 : (lastKm + 1 : ℤ) ≤ round c' := by
          rw [round_eq]
          rw [Int.le_floor]
          push_cast
          linarith
        omega
      obtain ⟨ihc, ihb⟩ := ih p (i + 1) c' (round c').toNat
      rw [if_pos hpush]
      refine ⟨List.chain'_cons'.mpr ⟨?_, ihc⟩, ?_⟩
      · intro y hy
        have hmem := ihb y (List.mem_of_mem_head? hy)
        exact ⟨by omega, by omega⟩
      · intro x hx
        rcases List.mem_cons.mp hx with rfl | hx
        · exact ⟨by omega, le_refl _⟩
        · have := ihb x hx
          exact ⟨by omega, by omega⟩
    · obtain ⟨ihc, ihb⟩ := ih p (i + 1) c' lastKm
      rw [if_neg hpush]
      refine ⟨ihc, fun x hx => ?_⟩
      have := ihb x hx
      exact ⟨this.1, by omega⟩

/-- C9: for every track with at least 2 points the first marker is
`(cumulativeKm 0, pointIndex 0)` and the marker list is strictly increasing in
both the rounded `cumulativeKm` and the `pointIndex`. -/
theorem c9_sampler_first_marker_and_monotone :
    ∀ (hav : HavFn) (points : List Point), 2 ≤ points.length →
      (sampleMarkers hav points).head? = some (0, 0) ∧
      List.Chain' (fun a b : Nat × Nat => a.1 < b.1 ∧ a.2 < b.2)
        (sampleMarkers hav points) := by
  intro hav points _h
  match points with
  | [] =>
    exact ⟨rfl, List.chain'_singleton _⟩
  | p :: rest =>
    refine ⟨rfl, ?_⟩
    show List.Chain' _ ((0, 0) :: sampleAux hav p 1 0 0 rest)
    refine List.chain'_cons'.mpr ⟨?_, (sampleAux_spec hav rest p 1 0 0).1⟩
    intro y hy
    have := (sampleAux_spec hav rest p 1 0 0).2 y (List.mem_of_mem_head? hy)
    exact ⟨this.1, by omega⟩

/-- C9 witness: the theorem applied to the concrete track `ptsA`. -/
theorem c9_sampler_witness :
    (sampleMarkers absDist ptsA).head? = some (0, 0) ∧
      List.Chain' (fun a b : Nat × Nat => a.1 < b.1 ∧ a.2 < b.2)
        (sampleMarkers absDist ptsA) :=
  c9_sampler_first_marker_and_monotone absDist ptsA (by decide)

/-!
## Claim C10 — zero coordinates
-/

/-- `nearestStep` at an element with a usable position. -/
theorem nearestStep_pos (hav : HavFn) (lat lon : ℚ)
    (getPos : Element → Option (ℚ × ℚ)) (acc : Option Element × ℚ) (el : Element)
    (pos : ℚ × ℚ) (h : getPos el = some pos) :
    nearestStep hav lat lon getPos acc el =
      if hav lat lon pos.1 pos.2 < acc.2 then (some el, hav lat lon pos.1 pos.2)
      else acc := by
  simp [nearestStep, h]

/-- `nearestStep` at an element without a usable position. -/
theorem nearestStep_none (hav : HavFn) (lat lon : ℚ)
    (getPos : Element → Option (ℚ × ℚ)) (acc : Option Element × ℚ) (el : Element)
    (h : getPos el = none) :
    nearestStep hav lat lon getPos acc el = acc := by
  simp [nearestStep, h]

/-- A nearest-feature fold only ever selects an element with a usable
position. -/
theorem nearestFold_pos_usable (hav : HavFn) (lat lon : ℚ)
    (getPos : Element → Option (ℚ × ℚ)) :
    ∀ (els : List Element) (acc : Option Element × ℚ),
      (∀ e, acc.1 = some e → getPos e ≠ none) →
      ∀ e, (els.foldl (nearestStep hav lat lon getPos) acc).1 = some e → getPos e ≠ none := by
  intro els
  induction els with
  | nil => intro acc hacc e he; exact hacc e he
  | cons el rest ih =>
    intro acc hacc e he
    simp only [List.foldl_cons] at he
    refine ih _ ?_ e he
    intro e' he'
    cases hpos : getPos el with
    | some pos =>
      rw [nearestStep_pos hav lat lon getPos acc el pos hpos] at he'
      by_cases hd : hav lat lon pos.1 pos.2 < acc.2
      · rw [if_pos hd] at he'
        cases he'
        simp [hpos]
      · rw [if_neg hd] at he'
        exact hacc e' he'
    | none =>
      rw [nearestStep_none hav lat lon getPos acc el hpos] at he'
      exact hacc e' he'

/-- C10: (1) the nearest-search never selects a feature without a usable
position; (2) a point feature with latitude or longitude exactly 0 has no
usable position, so it is excluded even though its coordinates are present;
(3) a river feature's zero latitude (resp. longitude) falls back to the
center's latitude (resp. longitude) for the distance computation. -/
theorem c10_zero_coordinate_handling :
    (∀ (hav : HavFn) (lat lon : ℚ) (els : List Element) (el : Element),
      nearestIn hav lat lon pointPos els = some el → pointPos el ≠ none) ∧
    (∀ el : Element, el.lat = some 0 ∨ el.lon = some 0 → pointPos el = none) ∧
    (∀ (el : Element) (c : ℚ × ℚ), el.center = some c →
      (el.lat = some 0 → riverLat el = some c.1) ∧
      (el.lon = some 0 → riverLon el = some c.2)) := by
  refine ⟨?_, ?_, ?_⟩
  · intro hav lat lon els el h
    exact nearestFold_pos_usable hav lat lon pointPos els (none, 1)
      (by intro e he; cases he) el h
  · intro el h
    rcases h with h | h <;> simp [pointPos, truthyQ, h]
  · intro el c hc
    constructor
    · intro hlat
      simp [riverLat, truthyQ, hlat, hc]
    · intro hlon
      simp [riverLon, truthyQ, hlon, hc]

/-- A river way with a zero own-latitude and a usable center. -/
def riverV : Element := ⟨some 0, some 3, some (2, 5), some (riverTags "V")⟩

/-- C10 witness: the selected town `townB12` has a usable position; the
zero-latitude pass `passZ` has none; the zero-latitude river `riverV` falls
back to its center latitude `2`. -/
theorem c10_zero_coordinate_witness :
    pointPos townB12 ≠ none ∧ pointPos passZ = none ∧ riverLat riverV = some 2 :=
  ⟨c10_zero_coordinate_handling.1 absDist 12 0 [townB12] townB12 (by decide),
   c10_zero_coordinate_handling.2.1 passZ (Or.inl rfl),
   (c10_zero_coordinate_handling.2.2 riverV (2, 5) rfl).1 rfl⟩

/-!
## Claim C6 — pass precedence (amended theorem)
-/

/-- A nearest-feature fold ending with `some` is preserved by further
elements. -/
theorem nearestFold_isSome_mono (hav : HavFn) (lat lon : ℚ)
    (getPos : Element → Option (ℚ × ℚ)) :
    ∀ (els : List Element) (acc : Option Element × ℚ), acc.1.isSome →
      (els.foldl (nearestStep hav lat lon getPos) acc).1.isSome := by
  intro els
  induction els with
  | nil => intro acc h; exact h
  | cons el rest ih =>
    intro acc h
    simp only [List.foldl_cons]
    refine ih _ ?_
    cases hpos : getPos el with
    | some pos =>
      rw [nearestStep_pos hav lat lon getPos acc el pos hpos]
      by_cases hd : hav lat lon pos.1 pos.2 < acc.2
      · rw [if_pos hd]; rfl
      · rw [if_neg hd]; exact h
    | none =>
      rw [nearestStep_none hav lat lon getPos acc el hpos]
      exact h

/-- If some listed element has a usable position within the threshold, the
nearest-feature fold selects an element. -/
theorem nearestFold_isSome (hav : HavFn) (lat lon : ℚ)
    (getPos : Element → Option (ℚ × ℚ)) :
    ∀ (els : List Element) (acc : Option Element × ℚ),
      (acc.1 = none → acc.2 = 1) →
      ((∃ el ∈ els, ∃ pos, getPos el = some pos ∧ hav lat lon pos.1 pos.2 < 1) ∨
        acc.1.isSome) →
      (els.foldl (nearestStep hav lat lon getPos) acc).1.isSome := by
  intro els
  induction els with
  | nil =>
    intro acc _ h
    rcases h with h | h
    · obtain ⟨el, hel, -⟩ := h
      cases hel
    · exact h
  | cons el rest ih =>
    intro acc hinit h
    simp only [List.foldl_cons]
    rcases h with h | h
    · obtain ⟨el', hel', pos, hpos, hd⟩ := h
      rcases List.mem_cons.mp hel' with rfl | hel'
      · rw [nearestStep_pos hav lat lon getPos acc el' pos hpos]
        by_cases hlt : hav lat lon pos.1 pos.2 < acc.2
        · rw [if_pos hlt]
          exact nearestFold_isSome_mono hav lat lon getPos rest _ rfl
        · cases hacc : acc.1 with
          | some e =>
            rw [if_neg hlt]
            refine nearestFold_isSome_mono hav lat lon getPos rest _ ?_
            rw [hacc]; rfl
          | none =>
            exact absurd (by rw [hinit hacc]; exact hd) hlt
      · refine ih _ ?_ (Or.inl ⟨el', hel', pos, hpos, hd⟩)
        intro hn
        cases hpos' : getPos el with
        | some pos' =>
          rw [nearestStep_pos hav lat lon getPos acc el pos' hpos'] at hn
          by_cases hlt : hav lat lon pos'.1 pos'.2 < acc.2
          · rw [if_pos hlt] at hn; cases hn
          · rw [if_neg hlt] at hn
            rw [nearestStep_pos hav lat lon getPos acc el pos' hpos', if_neg hlt]
            exact hinit hn
        | none =>
          rw [nearestStep_none hav lat lon getPos acc el hpos'] at hn
          rw [nearestStep_none hav lat lon getPos acc el hpos']
          exact hinit hn
    · refine nearestFold_isSome_mono hav lat lon getPos rest _ ?_
      cases hpos' : getPos el with
      | some pos' =>
        rw [nearestStep_pos hav lat lon getPos acc el pos' hpos']
        by_cases hlt : hav lat lon pos'.1 pos'.2 < acc.2
        · rw [if_pos hlt]; rfl
        · rw [if_neg hlt]; exact h
      | none =>
        rw [nearestStep_none hav lat lon getPos acc el hpos']
        exact h

/-- C6 (amended): whenever some pass feature with a usable (nonzero,
present) position lies strictly within the 1.0 km threshold of the marker's
point — in particular when the marker is also within threshold of a river —
the classifier's entry has type `pass`; a pass whose latitude or longitude is
exactly 0 is excluded from the search and cannot claim this precedence. -/
theorem c6_pass_precedence :
    ∀ (hav : HavFn) (points : List Point) (passes rivers towns : List Element)
      (idx : Nat) (el : Element) (pos : ℚ × ℚ),
      el ∈ passes → pointPos el = some pos →
      hav (pointAt points idx).lat (pointAt points idx).lon pos.1 pos.2 < 1 →
      ∃ e, classifyMarker hav points passes rivers towns idx = some e ∧ e.type = "pass" := by
  intro hav points passes rivers towns idx el pos hmem hpos hd
  have hsome : (nearestIn hav (pointAt points idx).lat (pointAt points idx).lon
      pointPos passes).isSome := by
    refine nearestFold_isSome hav _ _ pointPos passes (none, 1) (fun _ => rfl) ?_
    exact Or.inl ⟨el, hmem, pos, hpos, hd⟩
  obtain ⟨e', he'⟩ := Option.isSome_iff_exists.mp hsome
  refine ⟨⟨"pass", tagName e' "Unnamed Pass"⟩, ?_, rfl⟩
  simp only [classifyMarker, he']

/-- A pass with usable coordinates `(2, 3)`. -/
def passP : Element := ⟨some 2, some 3, none, some (passTags "P")⟩

/-- C6 witness: the theorem applied at a marker sitting on `passP`. -/
theorem c6_pass_precedence_witness :
    ∃ e, classifyMarker absDist [⟨2, 3, 0⟩] [passP] [] [] 0 = some e ∧ e.type = "pass" :=
  c6_pass_precedence absDist [⟨2, 3, 0⟩] [passP] [] [] 0 passP (2, 3)
    (by decide) (by decide) (by decide)

/-!
## Claim C8 — lookup failure
-/

/-- With all three feature collections empty, no marker gets an entry. -/
theorem classifyMarker_empty (hav : HavFn) (points : List Point) (idx : Nat) :
    classifyMarker hav points [] [] [] idx = none := rfl

/-- With all three feature collections empty, the summary is empty. -/
theorem buildSummary_empty (hav : HavFn) (points : List Point) :
    ∀ markers : List (Nat × Nat), buildSummary hav points [] [] [] markers = [] := by
  intro markers
  induction markers with
  | nil => rfl
  | cons m rest ih =>
    simp only [buildSummary, List.filterMap_cons, classifyMarker_empty, Option.map_none'] at ih ⊢
    exact ih

/-- Pass 1 is the identity on an empty summary. -/
theorem pass1_summary_nil (markers : List (Nat × Nat)) :
    ∀ st : FState, pass1 [] markers st = st := by
  induction markers with
  | nil => intro st; rfl
  | cons m rest ih =>
    intro st
    show pass1 [] rest (pass1Step [] st m) = st
    rw [show pass1Step [] st m = st from rfl]
    exact ih st

/-- Pass 2 is the identity on an empty summary. -/
theorem pass2_summary_nil (markers : List (Nat × Nat)) :
    ∀ st : FState, pass2 [] markers st = st := by
  induction markers with
  | nil => intro st; rfl
  | cons m rest ih =>
    intro st
    show pass2 [] rest (pass2Step [] st m) = st
    rw [show pass2Step [] st m = st from rfl]
    exact ih st

/-- There are no pass-3 candidates under an empty summary. -/
theorem pass3Cands_summary_nil (towns : List Element) (blockHas : List Nat) :
    ∀ markers : List (Nat × Nat), pass3Cands towns [] blockHas markers = [] := by
  intro markers
  induction markers with
  | nil => rfl
  | cons m rest ih =>
    simp only [pass3Cands, List.filterMap_cons] at ih ⊢
    exact ih

/-- Pass 3 is the identity on an empty summary. -/
theorem pass3_summary_nil (towns : List Element) (markers : List (Nat × Nat)) (st : FState) :
    pass3 towns [] markers st = st := by
  unfold pass3
  rw [pass3Cands_summary_nil]
  rfl

/-- The whole filter pipeline returns the empty map on an empty summary. -/
theorem runFilter_summary_nil (towns : List Element) (markers : List (Nat × Nat)) :
    runFilter towns markers [] = [] := by
  unfold runFilter runFilterState
  rw [pass1_summary_nil, pass2_summary_nil, pass3_summary_nil]
  rfl

/-- C8: when the external lookup throws (`none`) or its payload carries no
elements (`some []`), all three feature collections are empty, every marker is
classified with no entry (empty summary), and the pipeline still runs to
completion: the trace is one progress event per marker followed by exactly one
final `done` event carrying the empty FilteredResult. -/
theorem c8_lookup_failure :
    ∀ (hav : HavFn) (points : List Point) (ov : Option (List Element)),
      points ≠ [] → ov = none ∨ ov = some [] →
      splitElements (ov.getD []) = ([], [], []) ∧
      buildSummary hav points [] [] [] (sampleMarkers hav points) = [] ∧
      analyze hav points ov =
        some ((List.range (sampleMarkers hav points).length).map
            (fun m => Event.progress (m + 1) (sampleMarkers hav points).length)
          ++ [Event.done []]) := by
  intro hav points ov hne hov
  have hget : ov.getD [] = [] := by rcases hov with rfl | rfl <;> rfl
  refine ⟨by rw [hget]; rfl, buildSummary_empty hav points _, ?_⟩
  match points, hne with
  | p :: rest, _ =>
    show (if (p :: rest).isEmpty then none else _) = _
    rw [if_neg (by simp)]
    rw [hget]
    show some _ = some _
    rw [show splitElements [] = ([], [], []) from rfl]
    rw [buildSummary_empty, runFilter_summary_nil]

/-- C8 witness: the theorem applied to the concrete track `ptsA` with a thrown
lookup. -/
theorem c8_lookup_failure_witness :
    splitElements ((none : Option (List Element)).getD []) = ([], [], []) ∧
    buildSummary absDist ptsA [] [] [] (sampleMarkers absDist ptsA) = [] ∧
    analyze absDist ptsA none =
      some ((List.range (sampleMarkers absDist ptsA).length).map
          (fun m => Event.progress (m + 1) (sampleMarkers absDist ptsA).length)
        ++ [Event.done []]) :=
  c8_lookup_failure absDist ptsA none (by decide) (Or.inl rfl)

/-!
## Claims C2 and C3 — amended theorems: what the `seen` set actually does
-/

/-- Generic preservation of an invariant along a left fold. -/
theorem foldl_inv {α σ : Type} (Inv : σ → Prop) (f : σ → α → σ) :
    ∀ (l : List α) (st : σ), Inv st →
      (∀ x ∈ l, ∀ s, Inv s → Inv (f s x)) → Inv (l.foldl f st) := by
  intro l
  induction l with
  | nil => intro st h _; exact h
  | cons x rest ih =>
    intro st h hstep
    exact ih (f st x) (hstep x (List.mem_cons_self x rest) st h)
      (fun y hy s hs => hstep y (List.mem_cons_of_mem x hy) s hs)

/-- The names of the entries of one type in a result map. -/
def typedNames (T : String) (l : List (Nat × Entry)) : List String :=
  (l.filter (fun p => p.2.type == T)).map (fun p => p.2.name)

/-- The invariant tying `T`-typed accepted entries to the `seen` set: every
`T`-typed entry's key is recorded, and `T`-typed names are pairwise
distinct. -/
def InvT (T : String) (st : FState) : Prop :=
  (∀ p ∈ st.filtered, p.2.type = T → (T, p.2.name) ∈ st.seen) ∧
  (typedNames T st.filtered).Nodup

/-- `typedNames` over an appended entry of another type. -/
theorem typedNames_append_other (T : String) (l : List (Nat × Entry)) (km : Nat)
    (e : Entry) (hT : e.type ≠ T) :
    typedNames T (l ++ [(km, e)]) = typedNames T l := by
  simp [typedNames, List.filter_append, List.filter_cons, beq_eq_false_iff_ne.mpr hT]

/-- `typedNames` over an appended entry of the same type. -/
theorem typedNames_append_same (T : String) (l : List (Nat × Entry)) (km : Nat)
    (e : Entry) (hT : e.type = T) :
    typedNames T (l ++ [(km, e)]) = typedNames T l ++ [e.name] := by
  simp [typedNames, List.filter_append, List.filter_cons, hT]

/-- Appending an entry of a different type (and any new seen keys) preserves
`InvT`. -/
theorem invT_extend_other (T : String) (st : FState) (km : Nat) (e : Entry)
    (bh : List Nat) (sn : List (String × String)) (hT : e.type ≠ T) :
    InvT T st → InvT T ⟨st.filtered ++ [(km, e)], bh, st.seen ++ sn⟩ := by
  rintro ⟨h1, h2⟩
  constructor
  · intro p hp hpT
    rcases List.mem_append.mp hp with hp | hp
    · exact List.mem_append_left _ (h1 p hp hpT)
    · rw [List.mem_singleton.mp hp] at hpT
      exact absurd hpT hT
  · rw [typedNames_append_other T _ km e hT]
    exact h2

/-- Appending a `T`-typed entry whose key is new, while recording the key,
preserves `InvT`. -/
theorem invT_extend_same (T : String) (st : FState) (km : Nat) (e : Entry)
    (bh : List Nat) (hT : e.type = T) (hnew : (T, e.name) ∉ st.seen) :
    InvT T st → InvT T ⟨st.filtered ++ [(km, e)], bh, st.seen ++ [(e.type, e.name)]⟩ := by
  rintro ⟨h1, h2⟩
  constructor
  · intro p hp hpT
    rcases List.mem_append.mp hp with hp | hp
    · exact List.mem_append_left _ (h1 p hp hpT)
    · rw [List.mem_singleton.mp hp]
      refine List.mem_append_right _ ?_
      rw [hT]
      exact List.mem_singleton.mpr rfl
  · rw [typedNames_append_same T _ km e hT]
    rw [List.nodup_append]
    refine ⟨h2, List.nodup_singleton _, ?_⟩
    intro nm hnm hnm'
    rw [List.mem_singleton.mp hnm'] at hnm
    obtain ⟨p, hp, hpe⟩ := List.mem_map.mp hnm
    have hpT : p.2.type = T := by
      have := (List.mem_filter.mp hp).2
      exact beq_iff_eq.mp this
    have := h1 p (List.mem_filter.mp hp).1 hpT
    rw [hpe] at this
    exact hnew this

/-- A change of `blockHas` alone preserves `InvT`. -/
theorem invT_blockHas (T : String) (st : FState) (bh : List Nat) :
    InvT T st → InvT T ⟨st.filtered, bh, st.seen⟩ := fun h => h

/-- Pass-1 steps preserve `InvT T` for any `T` other than `pass`: pass 1 only
ever appends `pass`-typed entries. -/
theorem invT_pass1Step (T : String) (hT : T ≠ "pass") (summary : List (Nat × Entry))
    (m : Nat × Nat) (st : FState) :
    InvT T st → InvT T (pass1Step summary st m) := by
  intro h
  cases hlk : lookupA summary m.1 with
  | none => simpa [pass1Step, hlk] using h
  | some entry =>
    simp only [pass1Step, hlk]
    split_ifs with h1 h2 h3
    · exact h
    · exact h
    · exact invT_extend_other T st m.1 entry _ _ (by rw [h3]; exact fun he => hT he.symm) h
    · exact h

/-- Pass-2 steps preserve `InvT "town"`: pass 2 only appends `river`-typed
entries. -/
theorem invT_pass2Step_town (summary : List (Nat × Entry)) (m : Nat × Nat) (st : FState) :
    InvT "town" st → InvT "town" (pass2Step summary st m) := by
  intro h
  cases hlk : lookupA summary m.1 with
  | none => simpa [pass2Step, hlk] using h
  | some entry =>
    simp only [pass2Step, hlk]
    split_ifs with h1 h2 h3 h4
    · exact h
    · exact h
    · exact h
    · exact h
    · push_neg at h1
      exact invT_extend_other "town" st m.1 entry _ _ (by rw [h1]; decide) h

/-- Pass-2 steps preserve `InvT "river"`: a river is appended only when its
`(river, name)` key is not yet in `seen`, and the key is recorded. -/
theorem invT_pass2Step_river (summary : List (Nat × Entry)) (m : Nat × Nat) (st : FState) :
    InvT "river" st → InvT "river" (pass2Step summary st m) := by
  intro h
  cases hlk : lookupA summary m.1 with
  | none => simpa [pass2Step, hlk] using h
  | some entry =>
    simp only [pass2Step, hlk]
    split_ifs with h1 h2 h3 h4
    · exact h
    · exact h
    · exact h
    · exact h
    · push_neg at h1
      refine invT_extend_same "river" st m.1 entry _ h1 ?_ h
      rw [← h1]
      exact h4

/-- Pass-3 acceptance steps preserve `InvT "town"` when the candidate entry is
`town`-typed (which every pass-3 candidate is). -/
theorem invT_pass3Step_town (st : FState) (b : Nat × Nat × Entry × Option Nat)
    (hb : b.2.2.1.type = "town") :
    InvT "town" st → InvT "town" (pass3Step st b) := by
  intro h
  unfold pass3Step
  split_ifs with h1 h2
  · exact h
  · exact invT_blockHas _ st _ h
  · refine invT_extend_same "town" st b.2.1 b.2.2.1 _ hb ?_ h
    rw [← hb]
    exact h2

/-- Pass-3 acceptance steps preserve `InvT "river"`: pass 3 only appends
`town`-typed entries. -/
theorem invT_pass3Step_river (st : FState) (b : Nat × Nat × Entry × Option Nat)
    (hb : b.2.2.1.type = "town") :
    InvT "river" st → InvT "river" (pass3Step st b) := by
  intro h
  unfold pass3Step
  split_ifs with h1 h2
  · exact h
  · exact invT_blockHas _ st _ h
  · exact invT_extend_other "river" st b.2.1 b.2.2.1 _ _ (by rw [hb]; decide) h

/-- Membership in an upsert comes from the new pair or the old list. -/
theorem mem_upsertSorted {α : Type} (k : Nat) (v : α) :
    ∀ (l : List (Nat × α)) (x : Nat × α), x ∈ upsertSorted k v l → x = (k, v) ∨ x ∈ l := by
  intro l
  induction l with
  | nil =>
    intro x hx
    simp only [upsertSorted] at hx
    exact Or.inl (List.mem_singleton.mp hx)
  | cons hd tl ih =>
    intro x hx
    match hd with
    | (k', v') =>
      simp only [upsertSorted] at hx
      split_ifs at hx with hlt heq
      · rcases List.mem_cons.mp hx with rfl | hx
        · exact Or.inl rfl
        · exact Or.inr hx
      · rcases List.mem_cons.mp hx with rfl | hx
        · exact Or.inl rfl
        · exact Or.inr (List.mem_cons_of_mem _ hx)
      · rcases List.mem_cons.mp hx with rfl | hx
        · exact Or.inr (List.mem_cons_self _ _)
        · rcases ih x hx with h | h
          · exact Or.inl h
          · exact Or.inr (List.mem_cons_of_mem _ h)

/-- `btStep` when the block has no winner yet. -/
theorem btStep_none (bt : List (Nat × Nat × Entry × Option Nat))
    (c : Nat × Nat × Entry × Option Nat) (h : lookupA bt c.1 = none) :
    btStep bt c = upsertSorted c.1 c.2 bt := by
  simp [btStep, h]

/-- `btStep` when the candidate beats the current winner. -/
theorem btStep_some_gt (bt : List (Nat × Nat × Entry × Option Nat))
    (c : Nat × Nat × Entry × Option Nat) (cur : Nat × Entry × Option Nat)
    (h : lookupA bt c.1 = some cur) (hgt : popGT c.2.2.2 cur.2.2 = true) :
    btStep bt c = upsertSorted c.1 c.2 bt := by
  simp [btStep, h, hgt]

/-- `btStep` when the candidate does not beat the current winner. -/
theorem btStep_some_le (bt : List (Nat × Nat × Entry × Option Nat))
    (c : Nat × Nat × Entry × Option Nat) (cur : Nat × Entry × Option Nat)
    (h : lookupA bt c.1 = some cur) (hgt : popGT c.2.2.2 cur.2.2 = false) :
    btStep bt c = bt := by
  simp [btStep, h, hgt]

/-- Every winner in `blockTowns` is one of the candidates. -/
theorem mem_blockTownsOf (cands : List (Nat × Nat × Entry × Option Nat)) :
    ∀ x ∈ blockTownsOf cands, x ∈ cands := by
  unfold blockTownsOf
  refine foldl_inv (fun bt => ∀ x ∈ bt, x ∈ cands) _ cands [] ?_ ?_
  · intro x hx; cases hx
  · intro c hc bt hbt x hx
    cases hlk : lookupA bt c.1 with
    | none =>
      rw [btStep_none bt c hlk] at hx
      rcases mem_upsertSorted c.1 c.2 bt x hx with rfl | hx
      · exact hc
      · exact hbt x hx
    | some cur =>
      by_cases hgt : popGT c.2.2.2 cur.2.2 = true
      · rw [btStep_some_gt bt c cur hlk hgt] at hx
        rcases mem_upsertSorted c.1 c.2 bt x hx with rfl | hx
        · exact hc
        · exact hbt x hx
      · rw [btStep_some_le bt c cur hlk (Bool.eq_false_iff.mpr hgt)] at hx
        exact hbt x hx

/-- Every pass-3 candidate is a named `town` entry of an unclaimed block, its
first component is its km's block, and its population is the name lookup. -/
theorem pass3Cands_mem_spec (towns : List Element) (summary : List (Nat × Entry))
    (bh : List Nat) (markers : List (Nat × Nat)) :
    ∀ x ∈ pass3Cands towns summary bh markers,
      x.2.2.1.type = "town" ∧ x.1 = x.2.1 / 10 ∧
      x.2.2.2 = townPop towns x.2.2.1.name := by
  intro x hx
  obtain ⟨m, _hm, hf⟩ := List.mem_filterMap.mp hx
  cases hlk : lookupA summary m.1 with
  | none => simp only [hlk] at hf; cases hf
  | some entry =>
    simp only [hlk] at hf
    split_ifs at hf with h1 h2 h3
    cases hf
    push_neg at h1
    exact ⟨h1, rfl, rfl⟩

/-- Every key pass 1 records carries type `pass`. -/
theorem pass1_seen_typing (summary : List (Nat × Entry)) (markers : List (Nat × Nat))
    (st : FState) (h : ∀ k ∈ st.seen, k.1 = "pass") :
    ∀ k ∈ (pass1 summary markers st).seen, k.1 = "pass" := by
  refine foldl_inv (fun s => ∀ k ∈ s.seen, k.1 = "pass") _ markers st h ?_
  intro m _ s hs
  cases hlk : lookupA summary m.1 with
  | none => simpa [pass1Step, hlk] using hs
  | some entry =>
    simp only [pass1Step, hlk]
    split_ifs with h1 h2 h3
    · exact hs
    · exact hs
    · intro k hk
      rcases List.mem_append.mp hk with hk | hk
      · exact hs k hk
      · rw [List.mem_singleton.mp hk]
        exact h3
    · exact hs

/-- Every key pass 2 records carries type `pass` or `river`. -/
theorem pass2_seen_typing (summary : List (Nat × Entry)) (markers : List (Nat × Nat))
    (st : FState) (h : ∀ k ∈ st.seen, k.1 = "pass" ∨ k.1 = "river") :
    ∀ k ∈ (pass2 summary markers st).seen, k.1 = "pass" ∨ k.1 = "river" := by
  refine foldl_inv (fun s => ∀ k ∈ s.seen, k.1 = "pass" ∨ k.1 = "river") _ markers st h ?_
  intro m _ s hs
  cases hlk : lookupA summary m.1 with
  | none => simpa [pass2Step, hlk] using hs
  | some entry =>
    simp only [pass2Step, hlk]
    split_ifs with h1 h2 h3 h4
    · exact hs
    · exact hs
    · exact hs
    · exact hs
    · intro k hk
      rcases List.mem_append.mp hk with hk | hk
      · exact hs k hk
      · rw [List.mem_singleton.mp hk]
        push_neg at h1
        exact Or.inr h1

/-- The pass-3 block loop preserves `InvT "town"` and `InvT "river"`. -/
theorem invT_pass3 (T : String) (hT : T = "town" ∨ T = "river") (towns : List Element)
    (summary : List (Nat × Entry)) (markers : List (Nat × Nat)) (st : FState)
    (h : InvT T st) : InvT T (pass3 towns summary markers st) := by
  unfold pass3
  refine foldl_inv (InvT T) _ _ st h ?_
  intro b hb s hs
  have hbc := pass3Cands_mem_spec towns summary st.blockHas markers b
    (mem_blockTownsOf _ b hb)
  rcases hT with rfl | rfl
  · exact invT_pass3Step_town s b hbc.1 hs
  · exact invT_pass3Step_river s b hbc.1 hs

/-- `InvT` holds after the full three-pass filter for `town` and `river`. -/
theorem invT_runFilterState (T : String) (hT : T = "town" ∨ T = "river")
    (towns : List Element) (markers : List (Nat × Nat)) (summary : List (Nat × Entry)) :
    InvT T (runFilterState towns markers summary) := by
  have h0 : InvT T ⟨[], [], []⟩ := ⟨(by intro p hp; cases hp), (by simp [typedNames])⟩
  have h1 : InvT T (pass1 summary markers ⟨[], [], []⟩) := by
    refine foldl_inv (InvT T) _ markers _ h0 ?_
    intro m _ s hs
    refine invT_pass1Step T ?_ summary m s hs
    rcases hT with rfl | rfl <;> decide
  have h2 : InvT T (pass2 summary markers (pass1 summary markers ⟨[], [], []⟩)) := by
    refine foldl_inv (InvT T) _ markers _ h1 ?_
    intro m _ s hs
    rcases hT with rfl | rfl
    · exact invT_pass2Step_town summary m s hs
    · exact invT_pass2Step_river summary m s hs
  exact invT_pass3 T hT towns summary markers _ h2

/-- Nodup of typed names is inherited by sublists of the result map. -/
theorem typedNames_nodup_of_sublist (T : String) {l l' : List (Nat × Entry)}
    (h : l'.Sublist l) (hn : (typedNames T l).Nodup) : (typedNames T l').Nodup :=
  hn.sublist ((h.filter _).map _)

/-- C2 (amended): the keys recorded by passes 1 and 2 all carry type `pass` or
`river` — so they can never equal a town winner's `(town, name)` key — while
pass 3's own acceptances do record `(town, name)` keys and block later
same-named winners: town-typed entries in the final FilteredResult have
pairwise distinct names. -/
theorem c2_pass3_dedup_behavior :
    (∀ (summary : List (Nat × Entry)) (markers : List (Nat × Nat)),
      ((pass2 summary markers (pass1 summary markers ⟨[], [], []⟩)).seen).all
        (fun k => k.1 == "pass" || k.1 == "river") = true) ∧
    (∀ (towns : List Element) (markers : List (Nat × Nat)) (summary : List (Nat × Entry)),
      (typedNames "town" (runFilter towns markers summary)).Nodup) := by
  constructor
  · intro summary markers
    rw [List.all_eq_true]
    intro k hk
    have h1 := pass1_seen_typing summary markers ⟨[], [], []⟩ (by intro k hk; cases hk)
    have h2 := pass2_seen_typing summary markers _ (fun k hk => Or.inl (h1 k hk)) k hk
    rcases h2 with h | h <;> simp [h]
  · intro towns markers summary
    have h := (invT_runFilterState "town" (Or.inl rfl) towns markers summary).2
    exact typedNames_nodup_of_sublist "town" (List.filter_sublist _) h

/-- C3 (amended): every key recorded by pass 1 carries type `pass`, so pass
2's `(river, name)` seen-check can only be triggered by an earlier pass-2
acceptance; the check deduplicates same-named rivers, making river-typed
entries of the final FilteredResult pairwise distinct by name. -/
theorem c3_pass2_dedup_behavior :
    (∀ (summary : List (Nat × Entry)) (markers : List (Nat × Nat)),
      ((pass1 summary markers ⟨[], [], []⟩).seen).all (fun k => k.1 == "pass") = true) ∧
    (∀ (towns : List Element) (markers : List (Nat × Nat)) (summary : List (Nat × Entry)),
      (typedNames "river" (runFilter towns markers summary)).Nodup) := by
  constructor
  · intro summary markers
    rw [List.all_eq_true]
    intro k hk
    have h1 := pass1_seen_typing summary markers ⟨[], [], []⟩ (by intro k hk; cases hk) k hk
    simp [h1]
  · intro towns markers summary
    have h := (invT_runFilterState "river" (Or.inr rfl) towns markers summary).2
    exact typedNames_nodup_of_sublist "river" (List.filter_sublist _) h

/-!
## Claim C4 — amended theorem: population parsing and block winners
-/

/-- JS `>` never holds between equal values, `NaN` included. -/
theorem popGT_irrefl (x : Option Nat) : popGT x x = false := by
  cases x <;> simp [popGT]

/-- If `c` does not beat `w` and `w'` beats `w`, then `c` does not beat
`w'`. -/
theorem popGT_chain (c w w' : Option Nat) (h1 : popGT c w = false)
    (h2 : popGT w' w = true) : popGT c w' = false := by
  cases c <;> cases w <;> cases w' <;> simp_all [popGT] <;> omega

/-- Looking up the upserted key finds the new value. -/
theorem lookupA_upsertSorted_self {α : Type} (k : Nat) (v : α) :
    ∀ l : List (Nat × α), lookupA (upsertSorted k v l) k = some v := by
  intro l
  induction l with
  | nil => simp [upsertSorted, lookupA]
  | cons hd tl ih =>
    match hd with
    | (k1, v1) =>
      simp only [upsertSorted]
      split_ifs with h1 h2
      · simp [lookupA]
      · simp [lookupA]
      · have hne : k1 ≠ k := by omega
        simp [lookupA, hne, ih]

/-- Looking up any other key is unchanged by an upsert. -/
theorem lookupA_upsertSorted_other {α : Type} (k k' : Nat) (v : α) (hne : k' ≠ k) :
    ∀ l : List (Nat × α), lookupA (upsertSorted k v l) k' = lookupA l k' := by
  have hkn : ¬ k = k' := fun h => hne h.symm
  intro l
  induction l with
  | nil => simp [upsertSorted, lookupA, hkn]
  | cons hd tl ih =>
    match hd with
    | (k1, v1) =>
      simp only [upsertSorted]
      split_ifs with h1 h2
      · simp [lookupA, hkn]
      · subst h2
        simp [lookupA, hkn]
      · by_cases hk1 : k1 = k' <;> simp [lookupA, hk1, ih]

/-- The invariant of the grouping fold: the map holds, per block, a candidate
seen so far that no other seen candidate of that block strictly beats. -/
def BTInv (processed bt : List (Nat × Nat × Entry × Option Nat)) : Prop :=
  ∀ b : Nat,
    (lookupA bt b = none → ∀ c ∈ processed, c.1 ≠ b) ∧
    ∀ w, lookupA bt b = some w →
      (b, w) ∈ processed ∧ ∀ c ∈ processed, c.1 = b → popGT c.2.2.2 w.2.2 = false

/-- One grouping step preserves the invariant. -/
theorem btStep_spec (processed bt : List (Nat × Nat × Entry × Option Nat))
    (c : Nat × Nat × Entry × Option Nat) (h : BTInv processed bt) :
    BTInv (processed ++ [c]) (btStep bt c) := by
  intro b
  cases hlk : lookupA bt c.1 with
  | none =>
    rw [btStep_none bt c hlk]
    by_cases hb : b = c.1
    · subst hb
      constructor
      · intro hn
        rw [lookupA_upsertSorted_self] at hn
        cases hn
      · intro w hw
        rw [lookupA_upsertSorted_self] at hw
        injection hw with hw
        subst hw
        constructor
        · exact List.mem_append_right _ (List.mem_singleton.mpr rfl)
        · intro c' hc' hcb
          rcases List.mem_append.mp hc' with hc' | hc'
          · exact absurd hcb ((h c.1).1 hlk c' hc')
          · rw [List.mem_singleton.mp hc']
            exact popGT_irrefl _
    · rw [lookupA_upsertSorted_other c.1 b c.2 hb]
      constructor
      · intro hn c' hc'
        rcases List.mem_append.mp hc' with hc' | hc'
        · exact (h b).1 hn c' hc'
        · rw [List.mem_singleton.mp hc']
          exact fun hh => hb hh.symm
      · intro w hw
        obtain ⟨hmem, hopt⟩ := (h b).2 w hw
        refine ⟨List.mem_append_left _ hmem, ?_⟩
        intro c' hc' hcb
        rcases List.mem_append.mp hc' with hc' | hc'
        · exact hopt c' hc' hcb
        · rw [List.mem_singleton.mp hc'] at hcb
          exact absurd hcb.symm hb
  | some cur =>
    by_cases hgt : popGT c.2.2.2 cur.2.2 = true
    · rw [btStep_some_gt bt c cur hlk hgt]
      by_cases hb : b = c.1
      · subst hb
        constructor
        · intro hn
          rw [lookupA_upsertSorted_self] at hn
          cases hn
        · intro w hw
          rw [lookupA_upsertSorted_self] at hw
          injection hw with hw
          subst hw
          constructor
          · exact List.mem_append_right _ (List.mem_singleton.mpr rfl)
          · intro c' hc' hcb
            rcases List.mem_append.mp hc' with hc' | hc'
            · exact popGT_chain _ _ _ (((h c.1).2 cur hlk).2 c' hc' hcb) hgt
            · rw [List.mem_singleton.mp hc']
              exact popGT_irrefl _
      · rw [lookupA_upsertSorted_other c.1 b c.2 hb]
        constructor
        · intro hn c' hc'
          rcases List.mem_append.mp hc' with hc' | hc'
          · exact (h b).1 hn c' hc'
          · rw [List.mem_singleton.mp hc']
            exact fun hh => hb hh.symm
        · intro w hw
          obtain ⟨hmem, hopt⟩ := (h b).2 w hw
          refine ⟨List.mem_append_left _ hmem, ?_⟩
          intro c' hc' hcb
          rcases List.mem_append.mp hc' with hc' | hc'
          · exact hopt c' hc' hcb
          · rw [List.mem_singleton.mp hc'] at hcb
            exact absurd hcb.symm hb
    · rw [btStep_some_le bt c cur hlk (Bool.eq_false_iff.mpr hgt)]
      constructor
      · intro hn c' hc'
        rcases List.mem_append.mp hc' with hc' | hc'
        · exact (h b).1 hn c' hc'
        · rw [List.mem_singleton.mp hc']
          intro hcb
          rw [← hcb] at hn
          rw [hlk] at hn
          cases hn
      · intro w hw
        obtain ⟨hmem, hopt⟩ := (h b).2 w hw
        refine ⟨List.mem_append_left _ hmem, ?_⟩
        intro c' hc' hcb
        rcases List.mem_append.mp hc' with hc' | hc'
        · exact hopt c' hc' hcb
        · rw [List.mem_singleton.mp hc'] at hcb ⊢
          rw [← hcb] at hw
          rw [hlk] at hw
          injection hw with hw
          rw [hw] at hgt
          exact Bool.eq_false_iff.mpr hgt

/-- The grouping fold satisfies the invariant for all processed candidates. -/
theorem btFold_spec :
    ∀ (cands processed bt : List (Nat × Nat × Entry × Option Nat)),
      BTInv processed bt → BTInv (processed ++ cands) (cands.foldl btStep bt) := by
  intro cands
  induction cands with
  | nil => intro processed bt h; simpa using h
  | cons c cs ih =>
    intro processed bt h
    have := ih (processed ++ [c]) (btStep bt c) (btStep_spec processed bt c h)
    rw [List.append_assoc] at this
    simpa using this

/-- C4 (amended): a digitless string parses to `NaN` (`none`), not zero;
`NaN` never compares greater in either direction; the population defaults to
`0` exactly when no matching feature, tags or nonempty population string
exists; and each block's winner is a candidate of that block that no candidate
of the block strictly beats under the `NaN`-rejecting comparison (so with all
populations parseable the largest population wins, earliest first on ties,
while a `NaN`-population first candidate is never displaced). -/
theorem c4_population_semantics :
    (∀ s : String, s.toList.any Char.isDigit = false → parsePop s = none) ∧
    (∀ x : Option Nat, popGT x none = false ∧ popGT none x = false) ∧
    (∀ (towns : List Element) (nm : String),
      townPop towns nm = some 0 ∨
      ∃ el tg p, towns.find? (townMatches nm) = some el ∧ el.tags = some tg ∧
        tg.population = some p ∧ p ≠ "" ∧ townPop towns nm = parsePop p) ∧
    (∀ (cands : List (Nat × Nat × Entry × Option Nat)) (b : Nat)
      (w : Nat × Entry × Option Nat),
      lookupA (blockTownsOf cands) b = some w →
      (b, w) ∈ cands ∧ ∀ c ∈ cands, c.1 = b → popGT c.2.2.2 w.2.2 = false) := by
  refine ⟨?_, ?_, ?_, ?_⟩
  · intro s h
    have hnil : s.toList.filter Char.isDigit = [] := by
      rw [List.filter_eq_nil]
      intro a ha hda
      have htrue : s.toList.any Char.isDigit = true := List.any_eq_true.mpr ⟨a, ha, hda⟩
      rw [htrue] at h
      cases h
    simp only [parsePop]
    rw [hnil]
    rfl
  · intro x
    cases x <;> simp [popGT]
  · intro towns nm
    cases hf : towns.find? (townMatches nm) with
    | none => exact Or.inl (by simp [townPop, hf])
    | some el =>
      cases ht : el.tags with
      | none => exact Or.inl (by simp [townPop, hf, ht])
      | some tg =>
        cases hp : tg.population with
        | none => exact Or.inl (by simp [townPop, hf, ht, hp])
        | some p =>
          by_cases hpe : p = ""
          · exact Or.inl (by simp [townPop, hf, ht, hp, hpe])
          · exact Or.inr ⟨el, tg, p, rfl, ht, hp, hpe, by simp [townPop, hf, ht, hp, hpe]⟩
  · intro cands b w hw
    have h0 : BTInv [] [] := by
      intro b
      refine ⟨fun _ c hc => absurd hc (List.not_mem_nil c), fun w hw => ?_⟩
      cases hw
    have := btFold_spec cands [] [] h0
    rw [List.nil_append] at this
    exact (this b).2 w hw

/-- The two candidates of the C4 counterexample block, as pass-3 sees them. -/
def candsW : List (Nat × Nat × Entry × Option Nat) :=
  [(1, 10, ⟨"town", "A"⟩, none), (1, 12, ⟨"town", "B"⟩, some 500)]

/-- C4 witness: the theorem applied to the digitless string `"abc"` and to the
concrete candidate list of the counterexample block. -/
theorem c4_population_semantics_witness :
    parsePop "abc" = none ∧
    (1, 10, (⟨"town", "A"⟩ : Entry), (none : Option Nat)) ∈ candsW ∧
    popGT (some 500) (none : Option Nat) = false :=
  ⟨c4_population_semantics.1 "abc" (by decide),
   (c4_population_semantics.2.2.2 candsW 1 (10, ⟨"town", "A"⟩, none) (by decide)).1,
   (c4_population_semantics.2.2.2 candsW 1 (10, ⟨"town", "A"⟩, none) (by decide)).2
     (1, 12, ⟨"town", "B"⟩, some 500) (by decide) rfl⟩

/-!
## Claim C5 — proximity collapse
-/

/-- Every removal mark is one of the keys. -/
theorem toRemove_subset : ∀ (l : List Nat) (x : Nat), x ∈ toRemoveList l → x ∈ l := by
  intro l
  induction l with
  | nil => intro x hx; cases hx
  | cons a t ih =>
    intro x hx
    cases t with
    | nil => cases hx
    | cons b t' =>
      simp only [toRemoveList] at hx
      rcases List.mem_append.mp hx with hx | hx
      · by_cases hba : b - a < 5
        · rw [if_pos hba] at hx
          rw [List.mem_singleton.mp hx]
          exact List.mem_cons_self _ _
        · rw [if_neg hba] at hx
          cases hx
      · exact List.mem_cons_of_mem _ (ih x hx)

/-- Characterisation of the removal marks: exactly the earlier key of each
adjacent pair of keys strictly closer than 5, in one pass over the list. -/
theorem mem_toRemoveList_iff :
    ∀ (ks : List Nat) (x : Nat), x ∈ toRemoveList ks ↔
      ∃ i y, ks.get? i = some x ∧ ks.get? (i + 1) = some y ∧ y - x < 5 := by
  intro ks
  induction ks with
  | nil =>
    intro x
    constructor
    · intro hx; cases hx
    · rintro ⟨i, y, hx, -, -⟩
      rw [List.get?_nil] at hx
      cases hx
  | cons a t ih =>
    intro x
    cases t with
    | nil =>
      constructor
      · intro hx; cases hx
      · rintro ⟨i, y, hx, hy, -⟩
        match i, hx, hy with
        | 0, hx, hy =>
          rw [List.get?_cons_succ, List.get?_nil] at hy
          cases hy
        | i + 1, hx, hy =>
          rw [List.get?_cons_succ, List.get?_nil] at hx
          cases hx
    | cons b t' =>
      simp only [toRemoveList]
      constructor
      · intro hx
        rcases List.mem_append.mp hx with hx | hx
        · by_cases hba : b - a < 5
          · rw [if_pos hba] at hx
            rw [List.mem_singleton.mp hx]
            exact ⟨0, b, rfl, rfl, hba⟩
          · rw [if_neg hba] at hx
            cases hx
        · obtain ⟨i, y, h1, h2, h3⟩ := (ih x).mp hx
          refine ⟨i + 1, y, ?_, ?_, h3⟩
          · rw [List.get?_cons_succ]; exact h1
          · rw [List.get?_cons_succ]; exact h2
      · rintro ⟨i, y, h1, h2, h3⟩
        match i, h1, h2 with
        | 0, h1, h2 =>
          rw [List.get?_cons_zero] at h1
          rw [List.get?_cons_succ, List.get?_cons_zero] at h2
          injection h1 with h1
          injection h2 with h2
          subst h1
          subst h2
          refine List.mem_append.mpr (Or.inl ?_)
          rw [if_pos h3]
          exact List.mem_singleton.mpr rfl
        | i + 1, h1, h2 =>
          rw [List.get?_cons_succ] at h1
          rw [List.get?_cons_succ] at h2
          exact List.mem_append.mpr (Or.inr ((ih x).mpr ⟨i, y, h1, h2, h3⟩))

/-- After removing the marks, consecutive surviving keys are at least 5
apart: a surviving non-final key has its immediate successor at distance ≥ 5,
and later survivors are still further right. -/
theorem kept_chain_gap :
    ∀ ks : List Nat, List.Chain' (fun a b => a < b) ks →
      List.Chain' (fun a b => a + 5 ≤ b)
        (ks.filter (fun k => k ∉ toRemoveList ks)) := by
  intro ks
  induction ks with
  | nil => intro _; simp
  | cons a t ih =>
    intro hch
    cases t with
    | nil => simp [toRemoveList]
    | cons b t' =>
      have hpw : ∀ x ∈ b :: t', a < x := by
        have hp := List.chain'_iff_pairwise.mp hch
        exact fun x hx => (List.pairwise_cons.mp hp).1 x hx
      have htail : List.Chain' (fun a b => a < b) (b :: t') := hch.tail
      have hanotin : a ∉ toRemoveList (b :: t') := fun hmem =>
        lt_irrefl a (hpw a (toRemove_subset (b :: t') a hmem))
      have hfull : toRemoveList (a :: b :: t') =
          (if b - a < 5 then [a] else []) ++ toRemoveList (b :: t') := rfl
      have hmem_a : a ∈ toRemoveList (a :: b :: t') ↔ b - a < 5 := by
        rw [hfull]
        constructor
        · intro h
          rcases List.mem_append.mp h with h | h
          · by_cases hba : b - a < 5
            · exact hba
            · rw [if_neg hba] at h; cases h
          · exact absurd h hanotin
        · intro hba
          refine List.mem_append.mpr (Or.inl ?_)
          rw [if_pos hba]
          exact List.mem_singleton.mpr rfl
      have hmem_x : ∀ x ∈ b :: t',
          (x ∈ toRemoveList (a :: b :: t') ↔ x ∈ toRemoveList (b :: t')) := by
        intro x hx
        rw [hfull]
        constructor
        · intro h
          rcases List.mem_append.mp h with h | h
          · exfalso
            by_cases hba : b - a < 5
            · rw [if_pos hba] at h
              rw [List.mem_singleton.mp h] at hx
              exact lt_irrefl a (hpw a hx)
            · rw [if_neg hba] at h; cases h
          · exact h
        · intro h
          exact List.mem_append.mpr (Or.inr h)
      have hfl : (b :: t').filter (fun k => k ∉ toRemoveList (a :: b :: t')) =
          (b :: t').filter (fun k => k ∉ toRemoveList (b :: t')) := by
        apply List.filter_congr
        intro x hx
        simp only [decide_eq_decide]
        rw [hmem_x x hx]
      by_cases hba : b - a < 5
      · have ha_in : a ∈ toRemoveList (a :: b :: t') := hmem_a.mpr hba
        have hstep : (a :: b :: t').filter (fun k => k ∉ toRemoveList (a :: b :: t')) =
            (b :: t').filter (fun k => k ∉ toRemoveList (a :: b :: t')) := by
          simp [List.filter_cons, ha_in]
        rw [hstep, hfl]
        exact ih htail
      · have ha_out : a ∉ toRemoveList (a :: b :: t') := fun h => hba (hmem_a.mp h)
        have hstep : (a :: b :: t').filter (fun k => k ∉ toRemoveList (a :: b :: t')) =
            a :: (b :: t').filter (fun k => k ∉ toRemoveList (a :: b :: t')) := by
          simp [List.filter_cons, ha_out]
        rw [hstep, hfl]
        refine List.chain'_cons'.mpr ⟨?_, ih htail⟩
        intro y hy
        have hy_mem := List.mem_of_mem_head? hy
        have hy_in : y ∈ b :: t' := List.mem_of_mem_filter hy_mem
        have hb_le : b ≤ y := by
          rcases List.mem_cons.mp hy_in with rfl | hy_in
          · exact le_refl _
          · exact le_of_lt ((List.pairwise_cons.mp (List.chain'_iff_pairwise.mp htail)).1 y hy_in)
        have hab : a < b := hpw b (List.mem_cons_self _ _)
        omega

/-- Keys of the accepted map are distinct, and every accepted key's block is
claimed: the invariant each filter pass maintains. -/
def KeyInv (st : FState) : Prop :=
  (st.filtered.map Prod.fst).Nodup ∧ ∀ p ∈ st.filtered, p.1 / 10 ∈ st.blockHas

/-- Accepting an entry whose block is unclaimed (and claiming it) preserves
`KeyInv`. -/
theorem keyInv_extend (st : FState) (km : Nat) (e : Entry) (sn : List (String × String))
    (hnb : km / 10 ∉ st.blockHas) (h : KeyInv st) :
    KeyInv ⟨st.filtered ++ [(km, e)], st.blockHas ++ [km / 10], st.seen ++ sn⟩ := by
  obtain ⟨h1, h2⟩ := h
  constructor
  · rw [List.map_append, List.nodup_append]
    refine ⟨h1, by simp, ?_⟩
    intro x hx hx'
    simp only [List.map_cons, List.map_nil, List.mem_singleton] at hx'
    subst hx'
    obtain ⟨p, hp, hpk⟩ := List.mem_map.mp hx
    exact hnb (hpk ▸ h2 p hp)
  · intro p hp
    rcases List.mem_append.mp hp with hp | hp
    · exact List.mem_append_left _ (h2 p hp)
    · rw [List.mem_singleton.mp hp]
      exact List.mem_append_right _ (List.mem_singleton.mpr rfl)

/-- Claiming more blocks alone preserves `KeyInv`. -/
theorem keyInv_blocks (st : FState) (bs : List Nat) (h : KeyInv st) :
    KeyInv ⟨st.filtered, st.blockHas ++ bs, st.seen⟩ :=
  ⟨h.1, fun p hp => List.mem_append_left _ (h.2 p hp)⟩

/-- Pass-1 steps preserve `KeyInv`. -/
theorem keyInv_pass1Step (summary : List (Nat × Entry)) (m : Nat × Nat) (st : FState)
    (h : KeyInv st) : KeyInv (pass1Step summary st m) := by
  cases hlk : lookupA summary m.1 with
  | none => simpa [pass1Step, hlk] using h
  | some entry =>
    simp only [pass1Step, hlk]
    split_ifs with h1 h2 h3
    · exact h
    · exact h
    · exact keyInv_extend st m.1 entry _ h2 h
    · exact h

/-- Pass-2 steps preserve `KeyInv`. -/
theorem keyInv_pass2Step (summary : List (Nat × Entry)) (m : Nat × Nat) (st : FState)
    (h : KeyInv st) : KeyInv (pass2Step summary st m) := by
  cases hlk : lookupA summary m.1 with
  | none => simpa [pass2Step, hlk] using h
  | some entry =>
    simp only [pass2Step, hlk]
    split_ifs with h1 h2 h3 h4
    · exact h
    · exact h
    · exact h
    · exact h
    · exact keyInv_extend st m.1 entry _ h3 h

/-- Pass-3 steps preserve `KeyInv` for candidates whose first component is
their km's block (which all pass-3 winners are). -/
theorem keyInv_pass3Step (st : FState) (b : Nat × Nat × Entry × Option Nat)
    (hb : b.1 = b.2.1 / 10) (h : KeyInv st) : KeyInv (pass3Step st b) := by
  unfold pass3Step
  split_ifs with h1 h2
  · exact h
  · exact keyInv_blocks st [b.1] h
  · rw [hb] at h1 ⊢
    exact keyInv_extend st b.2.1 b.2.2.1 _ h1 h

/-- `KeyInv` holds after the full three-pass filter. -/
theorem keyInv_runFilterState (towns : List Element) (markers : List (Nat × Nat))
    (summary : List (Nat × Entry)) : KeyInv (runFilterState towns markers summary) := by
  have h0 : KeyInv ⟨[], [], []⟩ := ⟨List.nodup_nil, by intro p hp; cases hp⟩
  have h1 := foldl_inv KeyInv (pass1Step summary) markers _ h0
    (fun m _ s hs => keyInv_pass1Step summary m s hs)
  have h2 := foldl_inv KeyInv (pass2Step summary) markers _ h1
    (fun m _ s hs => keyInv_pass2Step summary m s hs)
  unfold runFilterState pass3
  refine foldl_inv KeyInv pass3Step _ _ h2 ?_
  intro b hb s hs
  exact keyInv_pass3Step s b
    (pass3Cands_mem_spec towns summary _ markers b (mem_blockTownsOf _ b hb)).2.1 hs

/-- Projecting the keys commutes with a key-based filter. -/
theorem map_fst_filter_key (q : Nat → Bool) :
    ∀ l : List (Nat × Entry),
      (l.filter (fun p => q p.1)).map Prod.fst = (l.map Prod.fst).filter q := by
  intro l
  induction l with
  | nil => rfl
  | cons p t ih =>
    cases hq : q p.1 <;> simp [List.filter_cons, hq, ih]

/-- Sorting the collapsed map's keys is the same as filtering the sorted key
list by the removal marks. -/
theorem sortedKeys_collapseFilter (l : List (Nat × Entry)) :
    List.insertionSort (fun a b => a ≤ b) ((collapseFilter l).map Prod.fst) =
      (sortedKeys l).filter (fun k => k ∉ toRemoveList (sortedKeys l)) := by
  refine List.eq_of_perm_of_sorted ?_ (List.sorted_insertionSort _ _)
    ((List.sorted_insertionSort _ _).filter _)
  have p1 : (List.insertionSort (fun a b => a ≤ b) ((collapseFilter l).map Prod.fst)).Perm
      ((collapseFilter l).map Prod.fst) := List.perm_insertionSort _ _
  have e2 : (collapseFilter l).map Prod.fst =
      (l.map Prod.fst).filter (fun k => k ∉ toRemoveList (sortedKeys l)) := by
    show (l.filter (fun p => p.1 ∉ toRemoveList (sortedKeys l))).map Prod.fst = _
    exact map_fst_filter_key (fun k => decide (k ∉ toRemoveList (sortedKeys l))) l
  have p3 : ((l.map Prod.fst).filter (fun k => k ∉ toRemoveList (sortedKeys l))).Perm
      ((sortedKeys l).filter (fun k => k ∉ toRemoveList (sortedKeys l))) :=
    (List.perm_insertionSort _ _).symm.filter _
  exact p1.trans (by rw [e2]; exact p3)

/-- With distinct keys, the sorted key list is strictly increasing. -/
theorem sortedKeys_chain_lt (l : List (Nat × Entry)) (h : (l.map Prod.fst).Nodup) :
    List.Chain' (fun a b => a < b) (sortedKeys l) := by
  have hs : List.Sorted (fun a b : Nat => a ≤ b) (sortedKeys l) :=
    List.sorted_insertionSort _ _
  have hn : (sortedKeys l).Nodup := ((List.perm_insertionSort _ _).nodup_iff).mpr h
  have hp : List.Pairwise (fun a b : Nat => a < b) (sortedKeys l) :=
    (hs.and hn).imp (fun hab => lt_of_le_of_ne hab.1 hab.2)
  exact hp.chain'

/-- C5: the removal marks are exactly the earlier key of each adjacent
closer-than-5 pair, computed in a single pass over the sorted key list; in the
final FilteredResult no two consecutive keys (by ascending km) are closer than
5 km; and candidate keys `[12, 15, 40]` collapse to `[15, 40]` (12 removed, 15
kept). -/
theorem c5_proximity_collapse :
    (∀ (ks : List Nat) (x : Nat), x ∈ toRemoveList ks ↔
      ∃ i y, ks.get? i = some x ∧ ks.get? (i + 1) = some y ∧ y - x < 5) ∧
    (∀ (towns : List Element) (markers : List (Nat × Nat)) (summary : List (Nat × Entry)),
      List.Chain' (fun a b => a + 5 ≤ b)
        (List.insertionSort (fun a b => a ≤ b)
          ((runFilter towns markers summary).map Prod.fst))) ∧
    collapseFilter [(12, ⟨"pass", "A"⟩), (15, ⟨"river", "B"⟩), (40, ⟨"town", "C"⟩)] =
      [(15, ⟨"river", "B"⟩), (40, ⟨"town", "C"⟩)] := by
  refine ⟨mem_toRemoveList_iff, ?_, by decide⟩
  intro towns markers summary
  unfold runFilter
  rw [sortedKeys_collapseFilter]
  exact kept_chain_gap _
    (sortedKeys_chain_lt _ (keyInv_runFilterState towns markers summary).1)

end GpxAni
